import Mathlib

/-!
Verification of the round-robin multi-agent orchestration core of
`src/main.py` (Jira/Playwright QA automation via autogen).

The orchestration engine itself (round-robin turn scheduler, tool-workbench
subprocess lifecycle, streaming sink, termination predicate) lives in the
`autogen` library; `src/main.py` configures and drives it.  Following the
specification, the engine is modelled here as a shallow embedding:

* `Message`, `SchedState`, `stepTurn`, `runTurns` — the turn scheduler;
* `Workbench`, `wbOpen`, `wbClose`, `wbCall` — the tool workbench lifecycle;
* `sessionRun` — the session lifecycle manager, mirroring the control flow of
  `main()` in `src/main.py` (open workbenches via nested context managers, run
  the scheduler, close workbenches on every exit path, close the model client
  only after a normal return of the run);
* `textMentionTermination` — the default termination predicate;
* `envSetup` — the module-level environment variable setup of `src/main.py`.
-/

/-- A conversation message: sender identifier plus text content. -/
structure Message where
  sender : String
  content : String
deriving DecidableEq

/-- Scheduler status: `Idle → Running → \x7bCompleted, Failed\x7d`; the embedding
starts at the seeded `running` state. -/
inductive SchedStatus where
  | running : SchedStatus
  | completed : SchedStatus
  | failed : SchedStatus
deriving DecidableEq

/-- Modelled from the spec: a Participant wraps a completion backend and a
role string; `produce` is its opaque `produceNext` step, returning either the
text content of the next message or a `BackendError` description. -/
structure ParticipantSpec where
  name : String
  produce : List Message → Except String String

/-- The scheduler state: fixed participant list and termination predicate,
the shared History (seed message first), the log of messages delivered to the
streaming sink, and the status. -/
structure SchedState where
  participants : List ParticipantSpec
  predicate : Message → Bool
  history : List Message
  sinkLog : List Message
  status : SchedStatus

/-- Modelled from the spec: one turn of the round-robin scheduler
(`RoundRobinGroupChat`): pick the participant whose index is the number of
post-seed messages modulo N, ask it to produce, append the result to History,
deliver it to the sink, evaluate the termination predicate; a `BackendError`
moves to `failed`, a predicate match to `completed`.  A non-`running` state is
left unchanged. -/
def stepTurn (s : SchedState) : SchedState :=
  match s.status with
  | SchedStatus.completed => s
  | SchedStatus.failed => s
  | SchedStatus.running =>
    match s.participants[(s.history.length - 1) % s.participants.length]? with
    | none => { s with status := SchedStatus.failed }
    | some p =>
      match p.produce s.history with
      | Except.error _ => { s with status := SchedStatus.failed }
      | Except.ok c =>
        let m : Message := { sender := p.name, content := c }
        if s.predicate m then
          { s with history := s.history ++ [m], sinkLog := s.sinkLog ++ [m],
                   status := SchedStatus.completed }
        else
          { s with history := s.history ++ [m], sinkLog := s.sinkLog ++ [m] }

/-- Run `n` turns of the scheduler. -/
def runTurns : Nat → SchedState → SchedState
  | 0, s => s
  | n + 1, s => runTurns n (stepTurn s)

/-- Modelled from the spec: the initial scheduler state, History seeded with
the task description as the first message. -/
def initState (parts : List ParticipantSpec) (pred : Message → Bool)
    (task : String) : SchedState :=
  { participants := parts, predicate := pred,
    history := [{ sender := "user", content := task }],
    sinkLog := [], status := SchedStatus.running }

theorem stepTurn_not_running (s : SchedState) (h : s.status ≠ SchedStatus.running) :
    stepTurn s = s := by
  unfold stepTurn
  cases hs : s.status with
  | running => exact absurd hs h
  | completed => rfl
  | failed => rfl

theorem stepTurn_participants (s : SchedState) :
    (stepTurn s).participants = s.participants := by
  unfold stepTurn
  cases s.status <;> simp
  split
  · rfl
  · split
    · rfl
    · split <;> rfl

theorem stepTurn_predicate (s : SchedState) :
    (stepTurn s).predicate = s.predicate := by
  unfold stepTurn
  cases s.status <;> simp
  split
  · rfl
  · split
    · rfl
    · split <;> rfl

theorem runTurns_succ_outer (n : Nat) (s : SchedState) :
    runTurns (n + 1) s = stepTurn (runTurns n s) := by
  induction n generalizing s with
  | zero => rfl
  | succ m ih =>
    show runTurns (m + 1) (stepTurn s) = stepTurn (runTurns (m + 1) s)
    rw [ih (stepTurn s)]
    rfl

theorem runTurns_participants (n : Nat) (s : SchedState) :
    (runTurns n s).participants = s.participants := by
  induction n generalizing s with
  | zero => rfl
  | succ m ih =>
    show (runTurns m (stepTurn s)).participants = s.participants
    rw [ih, stepTurn_participants]

theorem runTurns_predicate (n : Nat) (s : SchedState) :
    (runTurns n s).predicate = s.predicate := by
  induction n generalizing s with
  | zero => rfl
  | succ m ih =>
    show (runTurns m (stepTurn s)).predicate = s.predicate
    rw [ih, stepTurn_predicate]

theorem runTurns_frozen (n : Nat) (s : SchedState)
    (h : s.status ≠ SchedStatus.running) : runTurns n s = s := by
  induction n with
  | zero => rfl
  | succ m ih =>
    show runTurns m (stepTurn s) = s
    rw [stepTurn_not_running s h, ih]

theorem stepTurn_eq_of_ok (s : SchedState) (p : ParticipantSpec) (c : String)
    (hs : s.status = SchedStatus.running)
    (hp : s.participants[(s.history.length - 1) % s.participants.length]? = some p)
    (hc : p.produce s.history = Except.ok c) :
    stepTurn s = { s with
      history := s.history ++ [{ sender := p.name, content := c }],
      sinkLog := s.sinkLog ++ [{ sender := p.name, content := c }],
      status := if s.predicate { sender := p.name, content := c } = true
                then SchedStatus.completed else SchedStatus.running } := by
  unfold stepTurn
  by_cases hpm : s.predicate { sender := p.name, content := c } = true
  · simp only [hs, hp, hc, hpm, if_true]
  · simp only [hs, hp, hc]
    simp only [eq_false_of_ne_true hpm, if_false, Bool.false_eq_true]

theorem stepTurn_eq_of_error (s : SchedState) (p : ParticipantSpec) (e : String)
    (hs : s.status = SchedStatus.running)
    (hp : s.participants[(s.history.length - 1) % s.participants.length]? = some p)
    (hc : p.produce s.history = Except.error e) :
    stepTurn s = { s with status := SchedStatus.failed } := by
  unfold stepTurn
  simp only [hs, hp, hc]

/-- The expected sender sequence for the first `n` post-seed messages:
turn `j` is taken by participant `j % N`. -/
def senderSeq (parts : List ParticipantSpec) (n : Nat) : List String :=
  (List.range n).map
    (fun j => ((parts.map ParticipantSpec.name).getD (j % parts.length) ""))

theorem run_running_spec (parts : List ParticipantSpec) (pred : Message → Bool)
    (task : String) (hne : parts ≠ []) (n : Nat)
    (h : (runTurns n (initState parts pred task)).status = SchedStatus.running) :
    (runTurns n (initState parts pred task)).history.length = n + 1 ∧
    ((runTurns n (initState parts pred task)).history.drop 1).map Message.sender
      = senderSeq parts n := by
  induction n with
  | zero => exact ⟨rfl, rfl⟩
  | succ m ih =>
    rw [runTurns_succ_outer] at h ⊢
    have hprev : (runTurns m (initState parts pred task)).status = SchedStatus.running := by
      by_contra hc
      rw [stepTurn_not_running _ hc] at h
      exact hc h
    obtain ⟨hlen, hsend⟩ := ih hprev
    set sm := runTurns m (initState parts pred task) with hsm
    have hparts : sm.participants = parts := runTurns_participants ..
    have hNpos : 0 < parts.length := List.length_pos.mpr hne
    have hm : m % parts.length < parts.length := Nat.mod_lt _ hNpos
    have hidx : (sm.history.length - 1) % sm.participants.length = m % parts.length := by
      rw [hlen, hparts]
      simp
    have hget : sm.participants[(sm.history.length - 1) % sm.participants.length]?
        = some (parts.get ⟨m % parts.length, hm⟩) := by
      rw [hidx, hparts]
      rw [List.getElem?_eq_getElem hm]
      simp [List.get_eq_getElem]
    cases hcp : (parts.get ⟨m % parts.length, hm⟩).produce sm.history with
    | error e =>
      rw [stepTurn_eq_of_error sm _ e hprev hget hcp] at h
      exact absurd h (by simp)
    | ok c =>
      rw [stepTurn_eq_of_ok sm _ c hprev hget hcp] at h ⊢
      by_cases hpm : sm.predicate
          { sender := (parts.get ⟨m % parts.length, hm⟩).name, content := c } = true
      · rw [if_pos hpm] at h
        exact absurd h (by simp)
      · constructor
        · simp [hlen]
        · simp only []
          rw [List.drop_append_of_le_length (by omega), List.map_append, hsend]
          unfold senderSeq
          rw [List.range_succ, List.map_append]
          congr 1
          simp only [List.map_cons, List.map_nil]
          congr 1
          rw [List.getD_eq_getElem?_getD, List.getElem?_map,
            List.getElem?_eq_getElem hm]
          simp [List.get_eq_getElem]

theorem range_getD_map (L : List String) :
    (List.range L.length).map (fun j => L.getD j "") = L := by
  apply List.ext_getElem
  · simp
  · intro i h1 h2
    simp [List.getD_eq_getElem?_getD, List.getElem?_eq_getElem h2]

theorem senderSeq_cycle (parts : List ParticipantSpec) (K : Nat) :
    senderSeq parts (parts.length * K)
      = (List.replicate K (parts.map ParticipantSpec.name)).flatten := by
  induction K with
  | zero => simp [senderSeq]
  | succ k ih =>
    rw [Nat.mul_succ]
    unfold senderSeq
    rw [List.range_add, List.map_append]
    rw [List.replicate_succ', List.flatten_append]
    unfold senderSeq at ih
    rw [ih]
    congr 1
    rw [List.map_map]
    have hstep : (List.range parts.length).map
          ((fun j => (parts.map ParticipantSpec.name).getD (j % parts.length) "") ∘
            (fun x => parts.length * k + x))
        = (List.range parts.length).map
            (fun j => (parts.map ParticipantSpec.name).getD j "") := by
      apply List.map_congr_left
      intro j hj
      have hjN : j < parts.length := List.mem_range.mp hj
      simp [Function.comp, Nat.mul_add_mod, Nat.mod_eq_of_lt hjN]
    rw [hstep]
    have hlen : (parts.map ParticipantSpec.name).length = parts.length := by simp
    have hgd := range_getD_map (parts.map ParticipantSpec.name)
    rw [hlen] at hgd
    rw [hgd]
    simp

/-- C1: for N participants and K full rounds in which the run is still in the
`running` state after N·K turns (the termination predicate never matched and
no backend failed), the post-seed History contains exactly N·K messages and
its sender sequence is the participant name list repeated K times, in order,
with no participant skipped or reordered. -/
theorem claim1_turn_order (parts : List ParticipantSpec) (pred : Message → Bool)
    (task : String) (K : Nat) (hne : parts ≠ [])
    (h : (runTurns (parts.length * K) (initState parts pred task)).status
          = SchedStatus.running) :
    ((runTurns (parts.length * K) (initState parts pred task)).history.drop 1).length
        = parts.length * K ∧
    ((runTurns (parts.length * K) (initState parts pred task)).history.drop 1).map
        Message.sender
      = (List.replicate K (parts.map ParticipantSpec.name)).flatten := by
  obtain ⟨hlen, hsend⟩ := run_running_spec parts pred task hne _ h
  constructor
  · rw [List.length_drop, hlen]
    omega
  · rw [hsend, senderSeq_cycle parts K]

/-- A concrete participant modelled after the Bug_Analyst agent, always
producing a fixed reply. -/
def partA : ParticipantSpec :=
  { name := "Bug_Analyst", produce := fun _ => Except.ok "hi" }

/-- A concrete participant modelled after the Automation_Expert agent. -/
def partB : ParticipantSpec :=
  { name := "Automation_Expert", produce := fun _ => Except.ok "ok" }

/-- A termination predicate that never matches. -/
def neverMatch : Message → Bool := fun _ => false

/-- Witness for C1: a concrete 2-participant, 2-round run with a
never-matching predicate; the hypotheses hold and the sender sequence is
the two names repeated twice. -/
theorem claim1_turn_order_witness :
    ([partA, partB] : List ParticipantSpec) ≠ [] ∧
    (runTurns 4 (initState [partA, partB] neverMatch "t")).status = SchedStatus.running ∧
    ((runTurns 4 (initState [partA, partB] neverMatch "t")).history.drop 1).length = 4 ∧
    ((runTurns 4 (initState [partA, partB] neverMatch "t")).history.drop 1).map
        Message.sender
      = (List.replicate 2 ([partA, partB].map ParticipantSpec.name)).flatten := by
  have hne : ([partA, partB] : List ParticipantSpec) ≠ [] := by simp
  have h : (runTurns 4 (initState [partA, partB] neverMatch "t")).status
      = SchedStatus.running := rfl
  obtain ⟨h1, h2⟩ := claim1_turn_order [partA, partB] neverMatch "t" 2 hne h
  exact ⟨hne, h, h1, h2⟩

theorem runTurns_add (a b : Nat) (s : SchedState) :
    runTurns (a + b) s = runTurns a (runTurns b s) := by
  induction b generalizing s with
  | zero => rfl
  | succ m ih =>
    show runTurns (a + m + 1) s = runTurns a (runTurns (m + 1) s)
    show runTurns (a + m) (stepTurn s) = runTurns a (runTurns m (stepTurn s))
    exact ih (stepTurn s)

/-- C2: if the run is still `running` after t = (r−1)·N + i turns and the
participant scheduled at that turn — participant i (0-based) of round r
(1-based) — produces a message matching the termination predicate, the
scheduler transitions to `completed`, History holds exactly (r−1)·N + i + 1
post-seed messages, and no later participant is ever invoked: the state is
frozen from that point on. -/
theorem claim2_early_stop (parts : List ParticipantSpec) (pred : Message → Bool)
    (task : String) (r i : Nat) (hi : i < parts.length) (hr1 : 1 ≤ r)
    (hrun : (runTurns ((r - 1) * parts.length + i) (initState parts pred task)).status
        = SchedStatus.running)
    (hmatch : ∃ c, (parts.get ⟨i, hi⟩).produce
          (runTurns ((r - 1) * parts.length + i) (initState parts pred task)).history
        = Except.ok c ∧
        pred { sender := (parts.get ⟨i, hi⟩).name, content := c } = true) :
    (runTurns ((r - 1) * parts.length + i + 1) (initState parts pred task)).status
        = SchedStatus.completed ∧
    ((runTurns ((r - 1) * parts.length + i + 1)
        (initState parts pred task)).history.drop 1).length
      = (r - 1) * parts.length + i + 1 ∧
    ∀ k, runTurns ((r - 1) * parts.length + i + 1 + k) (initState parts pred task)
        = runTurns ((r - 1) * parts.length + i + 1) (initState parts pred task) := by
  obtain ⟨c, hok, hpm⟩ := hmatch
  have hne : parts ≠ [] := by
    intro hnil
    rw [hnil] at hi
    exact absurd hi (by simp)
  obtain ⟨hlen, _⟩ := run_running_spec parts pred task hne _ hrun
  set st := runTurns ((r - 1) * parts.length + i) (initState parts pred task) with hst
  have hparts : st.participants = parts := runTurns_participants ..
  have hpredE : st.predicate = pred := runTurns_predicate ..
  have hidx : (st.history.length - 1) % st.participants.length = i := by
    rw [hlen, hparts]
    simp only [Nat.add_sub_cancel]
    have hcm : (r - 1) * parts.length + i = i + (r - 1) * parts.length := Nat.add_comm ..
    rw [hcm, Nat.add_mul_mod_self_right, Nat.mod_eq_of_lt hi]
  have hget : st.participants[(st.history.length - 1) % st.participants.length]?
      = some (parts.get ⟨i, hi⟩) := by
    rw [hidx, hparts, List.getElem?_eq_getElem hi]
    simp [List.get_eq_getElem]
  have hpm2 : st.predicate { sender := (parts.get ⟨i, hi⟩).name, content := c } = true := by
    rw [hpredE]
    exact hpm
  have hstep : stepTurn st = { st with
      history := st.history ++ [{ sender := (parts.get ⟨i, hi⟩).name, content := c }],
      sinkLog := st.sinkLog ++ [{ sender := (parts.get ⟨i, hi⟩).name, content := c }],
      status := SchedStatus.completed } := by
    rw [stepTurn_eq_of_ok st _ c hrun hget hok, if_pos hpm2]
  have hnext : runTurns ((r - 1) * parts.length + i + 1) (initState parts pred task)
      = { st with
          history := st.history ++ [{ sender := (parts.get ⟨i, hi⟩).name, content := c }],
          sinkLog := st.sinkLog ++ [{ sender := (parts.get ⟨i, hi⟩).name, content := c }],
          status := SchedStatus.completed } := by
    rw [runTurns_succ_outer, ← hst, hstep]
  refine ⟨by rw [hnext], ?_, ?_⟩
  · rw [hnext]
    have h1 : (1 : Nat) ≤ st.history.length := by
      rw [hlen]
      omega
    rw [List.drop_append_of_le_length h1]
    simp only [List.length_append, List.length_drop, List.length_cons, List.length_nil, hlen]
    omega
  · intro k
    have hcomm : (r - 1) * parts.length + i + 1 + k = k + ((r - 1) * parts.length + i + 1) := by
      omega
    rw [hcomm, runTurns_add]
    apply runTurns_frozen
    rw [hnext]
    simp

/-- A termination predicate matching exactly the content "ok", which
participant `partB` produces. -/
def stopOnOk : Message → Bool := fun m => m.content == "ok"

/-- Witness for C2: with participants `partA`, `partB` and predicate
`stopOnOk`, participant 1 of round 1 matches; the run completes after exactly
2 post-seed messages and stays frozen. -/
theorem claim2_early_stop_witness :
    (runTurns 1 (initState [partA, partB] stopOnOk "t")).status = SchedStatus.running ∧
    (runTurns 2 (initState [partA, partB] stopOnOk "t")).status = SchedStatus.completed ∧
    ((runTurns 2 (initState [partA, partB] stopOnOk "t")).history.drop 1).length = 2 ∧
    runTurns 5 (initState [partA, partB] stopOnOk "t")
      = runTurns 2 (initState [partA, partB] stopOnOk "t") := by
  have hi : (1 : Nat) < ([partA, partB] : List ParticipantSpec).length := by simp
  have hrun : (runTurns ((1 - 1) * ([partA, partB] : List ParticipantSpec).length + 1)
      (initState [partA, partB] stopOnOk "t")).status = SchedStatus.running := rfl
  have hmatch : ∃ c, (([partA, partB] : List ParticipantSpec).get ⟨1, hi⟩).produce
      (runTurns ((1 - 1) * ([partA, partB] : List ParticipantSpec).length + 1)
        (initState [partA, partB] stopOnOk "t")).history = Except.ok c ∧
      stopOnOk (Message.mk (([partA, partB] : List ParticipantSpec).get ⟨1, hi⟩).name c)
        = true := ⟨"ok", rfl, rfl⟩
  obtain ⟨h1, h2, h3⟩ :=
    claim2_early_stop [partA, partB] stopOnOk "t" 1 1 hi (le_refl 1) hrun hmatch
  exact ⟨hrun, h1, h2, h3 3⟩

theorem stepTurn_history_cases (s : SchedState) :
    (stepTurn s).history = s.history ∨
    ∃ m, (stepTurn s).history = s.history ++ [m] := by
  cases hs : s.status with
  | completed =>
    rw [stepTurn_not_running s (by simp [hs])]
    exact Or.inl rfl
  | failed =>
    rw [stepTurn_not_running s (by simp [hs])]
    exact Or.inl rfl
  | running =>
    cases hp : s.participants[(s.history.length - 1) % s.participants.length]? with
    | none =>
      have hst : stepTurn s = { s with status := SchedStatus.failed } := by
        unfold stepTurn
        simp only [hs, hp]
      rw [hst]
      exact Or.inl rfl
    | some p =>
      cases hc : p.produce s.history with
      | error e =>
        rw [stepTurn_eq_of_error s p e hs hp hc]
        exact Or.inl rfl
      | ok c =>
        rw [stepTurn_eq_of_ok s p c hs hp hc]
        exact Or.inr ⟨_, rfl⟩

theorem stepTurn_history_ext (s : SchedState) :
    s.history <+: (stepTurn s).history := by
  rcases stepTurn_history_cases s with h | ⟨m, h⟩
  · rw [h]
  · rw [h]
    exact List.prefix_append _ _

theorem runTurns_history_ext (n : Nat) (s : SchedState) :
    s.history <+: (runTurns n s).history := by
  induction n generalizing s with
  | zero => exact List.prefix_rfl
  | succ m ih =>
    show s.history <+: (runTurns m (stepTurn s)).history
    exact (stepTurn_history_ext s).trans (ih (stepTurn s))

theorem runTurns_history_len_one (parts : List ParticipantSpec) (pred : Message → Bool)
    (task : String) (n : Nat) :
    1 ≤ (runTurns n (initState parts pred task)).history.length := by
  have hpre : (initState parts pred task).history
      <+: (runTurns n (initState parts pred task)).history :=
    runTurns_history_ext ..
  have hle := hpre.length_le
  simpa [initState] using hle

theorem runTurns_senders (parts : List ParticipantSpec) (pred : Message → Bool)
    (task : String) (n : Nat) :
    ∀ msg ∈ (runTurns n (initState parts pred task)).history.drop 1,
      msg.sender ∈ parts.map ParticipantSpec.name := by
  induction n with
  | zero =>
    intro msg hmsg
    simp [initState, runTurns] at hmsg
  | succ m ih =>
    rw [runTurns_succ_outer]
    set sm := runTurns m (initState parts pred task) with hsm
    have hparts : sm.participants = parts := runTurns_participants ..
    have hlen1 : 1 ≤ sm.history.length := runTurns_history_len_one ..
    cases hs : sm.status with
    | completed =>
      rw [stepTurn_not_running sm (by simp [hs])]
      exact ih
    | failed =>
      rw [stepTurn_not_running sm (by simp [hs])]
      exact ih
    | running =>
      cases hp : sm.participants[(sm.history.length - 1) % sm.participants.length]? with
      | none =>
        have hst : stepTurn sm = { sm with status := SchedStatus.failed } := by
          unfold stepTurn
          simp only [hs, hp]
        rw [hst]
        exact ih
      | some p =>
        have hpmem : p ∈ parts := by
          rw [hparts] at hp
          exact List.getElem?_mem hp
        cases hc : p.produce sm.history with
        | error e =>
          rw [stepTurn_eq_of_error sm p e hs hp hc]
          exact ih
        | ok c =>
          rw [stepTurn_eq_of_ok sm p c hs hp hc]
          intro msg hmsg
          simp only [] at hmsg
          rw [List.drop_append_of_le_length hlen1] at hmsg
          rcases List.mem_append.mp hmsg with h1 | h2
          · exact ih msg h1
          · simp at h2
            rw [h2]
            exact List.mem_map_of_mem ParticipantSpec.name hpmem

/-- C7: History invariants during a run: History only ever grows by
appending (the history after m ≤ n turns is a prefix of the history after n
turns), its length is monotonically non-decreasing, it is frozen once the
session has left the `running` state, a single turn appends at most one
message (participants never append themselves — the scheduler appends the one
returned message), and every post-seed message in History was produced by a
participant bound to the session (its sender is one of the participant
names). -/
theorem claim7_history_invariants (parts : List ParticipantSpec) (pred : Message → Bool)
    (task : String) (m n : Nat) (hmn : m ≤ n) :
    ((runTurns m (initState parts pred task)).history
        <+: (runTurns n (initState parts pred task)).history) ∧
    (runTurns m (initState parts pred task)).history.length
        ≤ (runTurns n (initState parts pred task)).history.length ∧
    ((runTurns n (initState parts pred task)).status ≠ SchedStatus.running →
      stepTurn (runTurns n (initState parts pred task))
        = runTurns n (initState parts pred task)) ∧
    ((stepTurn (runTurns n (initState parts pred task))).history
        = (runTurns n (initState parts pred task)).history ∨
      ∃ msg, (stepTurn (runTurns n (initState parts pred task))).history
        = (runTurns n (initState parts pred task)).history ++ [msg]) ∧
    (∀ msg ∈ (runTurns n (initState parts pred task)).history.drop 1,
      msg.sender ∈ parts.map ParticipantSpec.name) := by
  have hpre : (runTurns m (initState parts pred task)).history
      <+: (runTurns n (initState parts pred task)).history := by
    have hsplit : n = (n - m) + m := by omega
    rw [hsplit, runTurns_add]
    exact runTurns_history_ext ..
  exact ⟨hpre, hpre.length_le, stepTurn_not_running _, stepTurn_history_cases _,
    runTurns_senders parts pred task n⟩

/-- Witness for C7: the append-only invariants at a concrete run (participants
`partA`, `partB`, predicate `neverMatch`, turns 1 ≤ 2). -/
theorem claim7_history_invariants_witness :
    1 ≤ 2 ∧
    ((runTurns 1 (initState [partA, partB] neverMatch "t")).history
        <+: (runTurns 2 (initState [partA, partB] neverMatch "t")).history) ∧
    (runTurns 1 (initState [partA, partB] neverMatch "t")).history.length
        ≤ (runTurns 2 (initState [partA, partB] neverMatch "t")).history.length := by
  have h := claim7_history_invariants [partA, partB] neverMatch "t" 1 2 (by omega)
  exact ⟨by omega, h.1, h.2.1⟩

/-- C9: the streaming sink receives exactly the post-seed messages appended
to History, in production order, with none dropped or duplicated — after any
number of turns (including runs that end in failure part-way), the sink log
equals History with the seed message removed. -/
theorem claim9_sink_stream (parts : List ParticipantSpec) (pred : Message → Bool)
    (task : String) (n : Nat) :
    (runTurns n (initState parts pred task)).sinkLog
      = (runTurns n (initState parts pred task)).history.drop 1 := by
  induction n with
  | zero => rfl
  | succ m ih =>
    rw [runTurns_succ_outer]
    set sm := runTurns m (initState parts pred task) with hsm
    have hlen1 : 1 ≤ sm.history.length := runTurns_history_len_one ..
    cases hs : sm.status with
    | completed =>
      rw [stepTurn_not_running sm (by simp [hs])]
      exact ih
    | failed =>
      rw [stepTurn_not_running sm (by simp [hs])]
      exact ih
    | running =>
      cases hp : sm.participants[(sm.history.length - 1) % sm.participants.length]? with
      | none =>
        have hst : stepTurn sm = { sm with status := SchedStatus.failed } := by
          unfold stepTurn
          simp only [hs, hp]
        rw [hst]
        exact ih
      | some p =>
        cases hc : p.produce sm.history with
        | error e =>
          rw [stepTurn_eq_of_error sm p e hs hp hc]
          exact ih
        | ok c =>
          rw [stepTurn_eq_of_ok sm p c hs hp hc]
          simp only []
          rw [List.drop_append_of_le_length hlen1, ih]

/-- Workbench lifecycle states: `Unopened → Open → Closed`. -/
inductive WbState where
  | unopened : WbState
  | opened : WbState
  | closed : WbState
deriving DecidableEq

/-- Modelled from the spec: a tool workbench (`McpWorkbench`) managing one
subprocess.  `launchOk` abstracts whether the declared executable can be
started; `procAlive` tracks whether the subprocess is still running (it may
exit unexpectedly while the workbench is still `opened`); `timeoutSecs` is
the declared response timeout (`read_timeout_seconds=60` in `src/main.py`). -/
structure Workbench where
  state : WbState
  procAlive : Bool
  launchOk : Bool
  timeoutSecs : Nat
deriving DecidableEq

/-- Modelled from the spec: `open()` launches the subprocess, transitioning
`Unopened → Open`, or fails (`LaunchError`, modelled as `none`) when the
executable cannot be started. -/
def wbOpen (w : Workbench) : Option Workbench :=
  if w.launchOk then some { w with state := WbState.opened, procAlive := true }
  else none

/-- Modelled from the spec: `close()` terminates the subprocess and releases
the channel; it transitions to `Closed` from any state and always succeeds
(a total function), treating an already-exited subprocess as already
closed. -/
def wbClose (w : Workbench) : Workbench :=
  { w with state := WbState.closed, procAlive := false }

/-- Tool-call failure kinds at the workbench boundary. -/
inductive ToolError where
  | toolTimeout : ToolError
  | toolProtocol : ToolError
deriving DecidableEq

/-- A raw subprocess response: whether it parses, whether it pairs with the
request, and its payload. -/
structure RawResponse where
  wellFormed : Bool
  matchesRequest : Bool
  payload : String
deriving DecidableEq

/-- Modelled from the spec: `call()` sends a request and awaits the response,
bounded by the declared timeout.  `resp` abstracts the subprocess behaviour:
`none` when no response ever arrives, `some (t, r)` when raw response `r`
arrives after `t` seconds.  A late or absent response fails with
`ToolTimeoutError`; an unparseable or unmatched response fails with
`ToolProtocolError`; otherwise the payload is returned unchanged. -/
def wbCall (w : Workbench) (resp : Option (Nat × RawResponse)) :
    Except ToolError String :=
  match resp with
  | none => Except.error ToolError.toolTimeout
  | some (t, r) =>
    if w.timeoutSecs < t then Except.error ToolError.toolTimeout
    else if r.wellFormed && r.matchesRequest then Except.ok r.payload
    else Except.error ToolError.toolProtocol

/-- C8: `close()` is total and idempotent: from every state it succeeds (it
is a total function) and leaves the workbench `Closed`; closing twice is the
same as closing once; and closing a workbench that is already closed (with
its subprocess gone) is a no-op. -/
theorem claim8_close_idempotent :
    (∀ w : Workbench, (wbClose w).state = WbState.closed) ∧
    (∀ w : Workbench, wbClose (wbClose w) = wbClose w) ∧
    (∀ w : Workbench, w.state = WbState.closed → w.procAlive = false → wbClose w = w) := by
  refine ⟨fun w => rfl, fun w => rfl, fun w h1 h2 => ?_⟩
  cases w with
  | mk st pa lk ts =>
    simp only [wbClose]
    simp only [] at h1 h2
    rw [h1, h2]

/-- A concrete workbench value with the declared 60-second timeout, in a
given lifecycle state and subprocess liveness. -/
def wbSample (st : WbState) (pa : Bool) : Workbench :=
  { state := st, procAlive := pa, launchOk := true, timeoutSecs := 60 }

/-- Witness for C8: closing a never-opened workbench and an
unexpectedly-exited workbench yields the `Closed` state; closing twice equals
closing once; closing a closed workbench is a no-op. -/
theorem claim8_close_idempotent_witness :
    (wbClose (wbSample WbState.unopened false)).state = WbState.closed ∧
    wbClose (wbClose (wbSample WbState.opened false))
      = wbClose (wbSample WbState.opened false) ∧
    wbClose (wbSample WbState.closed false) = wbSample WbState.closed false := by
  refine ⟨claim8_close_idempotent.1 _, claim8_close_idempotent.2.1 _, ?_⟩
  exact claim8_close_idempotent.2.2 _ rfl rfl

/-- C6: a `call()` on an open workbench returns the subprocess's response
payload unchanged when the response arrives in time, parses and matches the
request; it fails with `ToolTimeoutError` (rather than hanging — `wbCall` is
total) when no response arrives, or arrives after the declared timeout; and
it fails with `ToolProtocolError` when the response cannot be parsed or
matched to the request. -/
theorem claim6_call_roundtrip (w : Workbench) (hopen : w.state = WbState.opened) :
    (∀ t r, t ≤ w.timeoutSecs → r.wellFormed = true → r.matchesRequest = true →
      wbCall w (some (t, r)) = Except.ok r.payload) ∧
    wbCall w none = Except.error ToolError.toolTimeout ∧
    (∀ t r, w.timeoutSecs < t → wbCall w (some (t, r)) = Except.error ToolError.toolTimeout) ∧
    (∀ t r, t ≤ w.timeoutSecs → (r.wellFormed = false ∨ r.matchesRequest = false) →
      wbCall w (some (t, r)) = Except.error ToolError.toolProtocol) := by
  refine ⟨?_, rfl, ?_, ?_⟩
  · intro t r ht h1 h2
    simp [wbCall, Nat.not_lt_of_le ht, h1, h2]
  · intro t r ht
    simp [wbCall, ht]
  · intro t r ht hbad
    rcases hbad with h1 | h1 <;> simp [wbCall, Nat.not_lt_of_le ht, h1]

/-- Witness for C6: a concrete open workbench with the declared 60-second
timeout: a valid response within the timeout is returned unchanged, a missing
response times out, and a malformed response is a protocol error. -/
theorem claim6_call_roundtrip_witness :
    (wbSample WbState.opened true).state = WbState.opened ∧
    wbCall (wbSample WbState.opened true)
        (some (3, { wellFormed := true, matchesRequest := true, payload := "pong" }))
      = Except.ok "pong" ∧
    wbCall (wbSample WbState.opened true) none = Except.error ToolError.toolTimeout ∧
    wbCall (wbSample WbState.opened true)
        (some (3, { wellFormed := false, matchesRequest := true, payload := "junk" }))
      = Except.error ToolError.toolProtocol := by
  have h := claim6_call_roundtrip (wbSample WbState.opened true) rfl
  exact ⟨rfl, h.1 3 _ (by decide) rfl rfl, h.2.1, h.2.2.2 3 _ (by decide) (Or.inl rfl)⟩

/-- A session-tracked workbench: the workbench paired with the number of
times the session has invoked `close()` on it. -/
def trackedClose (p : Workbench × Nat) : Workbench × Nat :=
  (wbClose p.1, p.2 + 1)

/-- Modelled from the spec and the nested `async with JIRA_workbench,
Playwright_workbench` of `src/main.py`: open the workbenches in order; if one
fails to launch, the already-opened earlier ones are closed again as the
context managers unwind and the run body is never entered.  Returns the
resulting tracked workbenches and whether all opens succeeded. -/
def openPhase : List (Workbench × Nat) → List (Workbench × Nat) × Bool
  | [] => ([], true)
  | p :: ps =>
    match wbOpen p.1 with
    | none => (p :: ps, false)
    | some w2 =>
      match openPhase ps with
      | (ps2, true) => ((w2, p.2) :: ps2, true)
      | (ps2, false) => (trackedClose (w2, p.2) :: ps2, false)

/-- The observable outcome of one session: the scheduler's final state, the
tracked workbenches after teardown, and how many times the completion-backend
connection (`model_client`) was closed. -/
structure SessionResult where
  finalState : SchedState
  workbenches : List (Workbench × Nat)
  modelClientCloseCalls : Nat

/-- The session lifecycle of `main()` in `src/main.py`: open both workbenches
(nested context managers), run the round-robin team for at most `fuel` turns,
close every opened workbench on every exit path (the context managers'
teardown), and invoke `model_client.close()` only when the run body returns
normally — i.e. only when the termination predicate matched; an error
propagating out of the run skips the close call on line 190. -/
def sessionRun (wbs : List Workbench) (parts : List ParticipantSpec)
    (pred : Message → Bool) (task : String) (fuel : Nat) : SessionResult :=
  let opened := openPhase (wbs.map (fun w => (w, 0)))
  if opened.2 then
    let fin := runTurns fuel (initState parts pred task)
    { finalState := fin,
      workbenches := opened.1.map trackedClose,
      modelClientCloseCalls := if fin.status = SchedStatus.completed then 1 else 0 }
  else
    { finalState := { initState parts pred task with status := SchedStatus.failed },
      workbenches := opened.1,
      modelClientCloseCalls := 0 }

theorem openPhase_all_ok (l : List (Workbench × Nat))
    (h : ∀ p ∈ l, p.1.launchOk = true) :
    openPhase l
      = (l.map (fun p => ({ p.1 with state := WbState.opened, procAlive := true }, p.2)),
         true) := by
  induction l with
  | nil => rfl
  | cons p ps ih =>
    have hp : p.1.launchOk = true := h p (by simp)
    have hps : ∀ q ∈ ps, q.1.launchOk = true := fun q hq => h q (by simp [hq])
    have hopen : wbOpen p.1 = some { p.1 with state := WbState.opened, procAlive := true } := by
      simp [wbOpen, hp]
    unfold openPhase
    rw [hopen, ih hps]
    rfl

theorem sessionRun_all_ok (wbs : List Workbench) (parts : List ParticipantSpec)
    (pred : Message → Bool) (task : String) (fuel : Nat)
    (hlaunch : ∀ w ∈ wbs, w.launchOk = true) :
    sessionRun wbs parts pred task fuel
      = { finalState := runTurns fuel (initState parts pred task),
          workbenches := wbs.map (fun w =>
            trackedClose ({ w with state := WbState.opened, procAlive := true }, 0)),
          modelClientCloseCalls :=
            if (runTurns fuel (initState parts pred task)).status = SchedStatus.completed
            then 1 else 0 } := by
  have hl : ∀ p ∈ wbs.map (fun w => (w, (0 : Nat))), p.1.launchOk = true := by
    intro p hp
    rcases List.mem_map.mp hp with ⟨w, hw, rfl⟩
    exact hlaunch w hw
  unfold sessionRun
  rw [openPhase_all_ok _ hl]
  simp [List.map_map, Function.comp]

/-- C3 (amended): on every exit path of a session whose workbenches can all
launch — normal completion via predicate match, failure, or hitting the
imposed turn cap — every opened workbench is closed exactly once and ends in
the `Closed` state with its subprocess gone; the completion-backend
connection, however, is released exactly once only when the run completed
normally (the termination predicate matched) and is not released on the
other exit paths. -/
theorem claim3_resource_cleanup (wbs : List Workbench) (parts : List ParticipantSpec)
    (pred : Message → Bool) (task : String) (fuel : Nat)
    (hlaunch : ∀ w ∈ wbs, w.launchOk = true) :
    (∀ q ∈ (sessionRun wbs parts pred task fuel).workbenches,
       q.1.state = WbState.closed ∧ q.1.procAlive = false ∧ q.2 = 1) ∧
    (sessionRun wbs parts pred task fuel).modelClientCloseCalls
      = (if (sessionRun wbs parts pred task fuel).finalState.status = SchedStatus.completed
         then 1 else 0) := by
  rw [sessionRun_all_ok wbs parts pred task fuel hlaunch]
  constructor
  · intro q hq
    rcases List.mem_map.mp hq with ⟨w, hw, rfl⟩
    exact ⟨rfl, rfl, rfl⟩
  · rfl

/-- A participant whose backend call always raises `BackendError`. -/
def partBad : ParticipantSpec :=
  { name := "Bug_Analyst", produce := fun _ => Except.error "BackendError" }

/-- Counterexample to C3 as stated: a session whose first participant's
backend call fails exits through the error path; the workbench teardown
still runs, but `model_client.close()` on line 190 of `src/main.py` is never
reached, so the completion-backend connection is released zero times, not
exactly once. -/
theorem claim3_counterexample :
    (sessionRun [wbSample WbState.unopened false] [partBad] neverMatch "t" 1).finalState.status
      = SchedStatus.failed ∧
    (sessionRun [wbSample WbState.unopened false] [partBad] neverMatch "t" 1).modelClientCloseCalls
      = 0 ∧
    (sessionRun [wbSample WbState.unopened false] [partBad] neverMatch "t" 1).workbenches.map
        (fun q => (q.1.state, q.2))
      = [(WbState.closed, 1)] := by
  exact ⟨rfl, rfl, rfl⟩

/-- Witness for C3 (amended): a concrete completing session (predicate
matches on the second message): both workbenches are closed exactly once and
the backend connection is released exactly once. -/
theorem claim3_resource_cleanup_witness :
    ((sessionRun [wbSample WbState.unopened false, wbSample WbState.unopened true]
        [partA, partB] stopOnOk "t" 2).workbenches.map (fun q => (q.1.state, q.1.procAlive, q.2)))
      = [(WbState.closed, false, 1), (WbState.closed, false, 1)] ∧
    (sessionRun [wbSample WbState.unopened false, wbSample WbState.unopened true]
        [partA, partB] stopOnOk "t" 2).modelClientCloseCalls = 1 := by
  have h := claim3_resource_cleanup
    [wbSample WbState.unopened false, wbSample WbState.unopened true]
    [partA, partB] stopOnOk "t" 2 (by decide)
  constructor
  · have h1 := h.1
    rfl
  · rw [h.2]
    rfl

/-- C5: if the session is still running after `t` turns and the participant
scheduled at turn `t` raises `BackendError`, the scheduler transitions to
`failed` and stops immediately, preserving History exactly as produced so
far; the session teardown still closes every opened workbench exactly
once. -/
theorem claim5_backend_error (wbs : List Workbench) (parts : List ParticipantSpec)
    (pred : Message → Bool) (task : String) (t fuel : Nat) (e : String)
    (p : ParticipantSpec)
    (hlaunch : ∀ w ∈ wbs, w.launchOk = true)
    (hne : parts ≠ [])
    (hfuel : t < fuel)
    (hrun : (runTurns t (initState parts pred task)).status = SchedStatus.running)
    (hp : parts[t % parts.length]? = some p)
    (herr : p.produce (runTurns t (initState parts pred task)).history = Except.error e) :
    (sessionRun wbs parts pred task fuel).finalState.status = SchedStatus.failed ∧
    (sessionRun wbs parts pred task fuel).finalState.history
      = (runTurns t (initState parts pred task)).history ∧
    (∀ q ∈ (sessionRun wbs parts pred task fuel).workbenches,
       q.1.state = WbState.closed ∧ q.2 = 1) := by
  obtain ⟨hlen, _⟩ := run_running_spec parts pred task hne t hrun
  set st := runTurns t (initState parts pred task) with hst
  have hparts : st.participants = parts := runTurns_participants ..
  have hget : st.participants[(st.history.length - 1) % st.participants.length]? = some p := by
    rw [hparts, hlen]
    simpa using hp
  have hstep : stepTurn st = { st with status := SchedStatus.failed } :=
    stepTurn_eq_of_error st p e hrun hget herr
  have hfail : runTurns (t + 1) (initState parts pred task)
      = { st with status := SchedStatus.failed } := by
    rw [runTurns_succ_outer, ← hst, hstep]
  have hfin : runTurns fuel (initState parts pred task)
      = { st with status := SchedStatus.failed } := by
    have hsplit : fuel = (fuel - (t + 1)) + (t + 1) := by omega
    rw [hsplit, runTurns_add, hfail]
    exact runTurns_frozen _ _ (by simp)
  rw [sessionRun_all_ok wbs parts pred task fuel hlaunch]
  refine ⟨by rw [hfin], by rw [hfin], ?_⟩
  intro q hq
  rcases List.mem_map.mp hq with ⟨w, hw, rfl⟩
  exact ⟨rfl, rfl⟩

/-- Witness for C5: participant `partBad` fails on its very first invocation;
the session ends `failed`, History contains only the seed message, and the
workbench is closed exactly once. -/
theorem claim5_backend_error_witness :
    (runTurns 0 (initState [partBad] neverMatch "do it")).status = SchedStatus.running ∧
    partBad.produce (runTurns 0 (initState [partBad] neverMatch "do it")).history
      = Except.error "BackendError" ∧
    (sessionRun [wbSample WbState.unopened false] [partBad] neverMatch "do it" 1).finalState.status
      = SchedStatus.failed ∧
    (sessionRun [wbSample WbState.unopened false] [partBad] neverMatch "do it" 1).finalState.history
      = [{ sender := "user", content := "do it" }] ∧
    (sessionRun [wbSample WbState.unopened false] [partBad] neverMatch "do it" 1).workbenches.map
        (fun q => (q.1.state, q.2))
      = [(WbState.closed, 1)] := by
  have h := claim5_backend_error [wbSample WbState.unopened false] [partBad] neverMatch
    "do it" 0 1 "BackendError" partBad (by decide) (by simp) (by omega) rfl rfl rfl
  refine ⟨rfl, rfl, h.1, ?_, rfl⟩
  rw [h.2.1]
  rfl

/-- Modelled from the spec: does `pat` occur as a contiguous substring
anywhere (unanchored) in `l`?  Character-exact, hence case-sensitive. -/
def containsSub (pat : List Char) : List Char → Bool
  | [] => pat.isEmpty
  | c :: rest => pat.isPrefixOf (c :: rest) || containsSub pat rest

/-- Modelled from the spec: the default termination predicate
(`TextMentionTermination`): true iff the configured marker phrase occurs as
an exact substring of the message's text content.  It is a plain function of
the message, so it is pure and gives the same result on every evaluation. -/
def textMentionTermination (marker : String) (m : Message) : Bool :=
  containsSub marker.data m.content.data

theorem containsSub_iff (pat l : List Char) :
    containsSub pat l = true ↔ ∃ pre post, pre ++ pat ++ post = l := by
  induction l with
  | nil =>
    constructor
    · intro h
      have hem : pat = [] := by
        simpa [containsSub, List.isEmpty_iff] using h
      exact ⟨[], [], by simp [hem]⟩
    · rintro ⟨pre, post, hppp⟩
      obtain ⟨h2, hpost0⟩ := List.append_eq_nil.mp hppp
      obtain ⟨hpre0, hpat0⟩ := List.append_eq_nil.mp h2
      simp [containsSub, hpat0]
  | cons c rest ih =>
    constructor
    · intro h
      have h0 : pat <+: (c :: rest) ∨ containsSub pat rest = true := by
        simpa [containsSub] using h
      rcases h0 with h1 | h2
      · obtain ⟨t, ht⟩ := h1
        exact ⟨[], t, by simpa using ht⟩
      · obtain ⟨pre, post, hppp⟩ := ih.mp h2
        exact ⟨c :: pre, post, by simp [hppp]⟩
    · rintro ⟨pre, post, hppp⟩
      cases pre with
      | nil =>
        have hpre : pat.isPrefixOf (c :: rest) = true := by
          apply List.isPrefixOf_iff_prefix.mpr
          exact ⟨post, by simpa using hppp⟩
        simp [containsSub, hpre]
      | cons d dre =>
        rw [List.cons_append, List.cons_append] at hppp
        injection hppp with h1 h2
        have hrest : containsSub pat rest = true := ih.mpr ⟨dre, post, h2⟩
        simp [containsSub, hrest]

/-- C4: the default termination predicate is a pure boolean function of a
single message, and it returns true exactly when the configured marker
phrase occurs — case-sensitively, character for character — as a contiguous
substring anywhere (unanchored) in the message's text content. -/
theorem claim4_text_mention (marker : String) (m : Message) :
    textMentionTermination marker m = true ↔
    ∃ pre post, pre ++ marker.data ++ post = m.content.data :=
  containsSub_iff marker.data m.content.data

/-- Witness for C4: the configured marker "TESTING COMPLETE" is found
mid-message, and the lowercase variant is not matched (case sensitivity). -/
theorem claim4_text_mention_witness :
    textMentionTermination "TESTING COMPLETE"
      { sender := "Automation_Expert", content := "done: TESTING COMPLETE, bye" } = true ∧
    textMentionTermination "TESTING COMPLETE"
      { sender := "Automation_Expert", content := "done: testing complete, bye" } = false := by
  constructor
  · exact (claim4_text_mention "TESTING COMPLETE"
      { sender := "Automation_Expert", content := "done: TESTING COMPLETE, bye" }).mpr
      ⟨"done: ".data, ", bye".data, rfl⟩
  · rfl

/-- A process environment: a partial map from variable names to values. -/
def Env : Type := String → Option String

/-- Python's `os.getenv(key, default)`: the variable's value when set,
otherwise the default. -/
def osGetenv (env : Env) (k d : String) : String :=
  (env k).getD d

/-- Python's `os.environ[k] = v`: point update of the environment. -/
def osSetenv (env : Env) (k v : String) : Env :=
  fun q => if q = k then some v else env q

/-- The module-level environment setup of `src/main.py` (lines 32-44): each
of the four credentials is re-assigned to its own value with default "", and
the Jira project filter with default "AATC", in source order. -/
def envSetup (e : Env) : Env :=
  let e1 := osSetenv e "OPENAI_API_KEY" (osGetenv e "OPENAI_API_KEY" "")
  let e2 := osSetenv e1 "JIRA_URL" (osGetenv e1 "JIRA_URL" "")
  let e3 := osSetenv e2 "JIRA_USERNAME" (osGetenv e2 "JIRA_USERNAME" "")
  let e4 := osSetenv e3 "JIRA_API_TOKEN" (osGetenv e3 "JIRA_API_TOKEN" "")
  osSetenv e4 "JIRA_PROJECTS_FILTER" (osGetenv e4 "JIRA_PROJECTS_FILTER" "AATC")

/-- C10: environment setup is a total function (never raises, whatever the
starting environment), and afterwards each credential variable holds its
prior value when it was set and "" otherwise, while JIRA_PROJECTS_FILTER
holds its prior value when set and "AATC" otherwise. -/
theorem claim10_env_setup (e : Env) :
    envSetup e "OPENAI_API_KEY" = some ((e "OPENAI_API_KEY").getD "") ∧
    envSetup e "JIRA_URL" = some ((e "JIRA_URL").getD "") ∧
    envSetup e "JIRA_USERNAME" = some ((e "JIRA_USERNAME").getD "") ∧
    envSetup e "JIRA_API_TOKEN" = some ((e "JIRA_API_TOKEN").getD "") ∧
    envSetup e "JIRA_PROJECTS_FILTER" = some ((e "JIRA_PROJECTS_FILTER").getD "AATC") := by
  refine ⟨?_, ?_, ?_, ?_, ?_⟩ <;> simp [envSetup, osSetenv, osGetenv]

/-- Witness for C10: on the empty starting environment, every credential
becomes "" and the project filter becomes "AATC". -/
theorem claim10_env_setup_witness :
    envSetup (fun _ => none) "OPENAI_API_KEY" = some "" ∧
    envSetup (fun _ => none) "JIRA_PROJECTS_FILTER" = some "AATC" := by
  have h := claim10_env_setup (fun _ => none)
  exact ⟨h.1, h.2.2.2.2⟩
